import Mathlib

/-!
# A verification development for the Monkey bytecode toolchain

This file gives a shallow embedding, in Lean 4, of the Rust sources of the
`monkey_interpreter` repository (lexer, Pratt parser, bytecode compiler with
its symbol table, and the stack virtual machine), together with theorems
settling the specification claims about those components.

Modelling conventions, used uniformly below:

* Rust `Vec<u8>` instruction streams are `List Nat` (each element a byte value).
* Rust `i64` values are unbounded `Int` together with explicit two's-complement
  range bookkeeping (`minI64`, `maxI64`) where overflow matters; `usize` and
  `u16` casts are modelled by the corresponding `% 2 ^ w` arithmetic.
* Fallible Rust code returns `Except`/`Option` in the embedding.  A host panic
  (an `unwrap`/`expect`/`unreachable!` that aborts the process, an
  out-of-bounds index, or a non-exhaustive `match` over an enum, which in the
  checked-out sources does not even compile) is modelled by a distinguished
  abort outcome (`Option.none`, or a `panicked` error constructor), kept
  separate from the error values the code returns deliberately.
* `HashMap` state is modelled by association lists whose lookup uses the
  structural equality that the Rust `Eq`/`PartialEq` derivations give.
* The VM operand stack is a `List` whose *last* element is the top of the
  stack (matching the `Vec` the Rust code pushes to and pops from), and the
  frame stack likewise.
-/

set_option maxRecDepth 10000

deriving instance DecidableEq for Except

namespace Monkey

/-! ## Two's-complement bookkeeping for the Rust integer types -/

/-- Smallest `i64` value, `-2^63`. -/
def minI64 : Int := -9223372036854775808

/-- Largest `i64` value, `2^63 - 1`. -/
def maxI64 : Int := 9223372036854775807

/-- `v` is representable as an `i64`. -/
def inI64 (v : Int) : Prop := minI64 ≤ v ∧ v ≤ maxI64

instance (v : Int) : Decidable (inI64 v) := by unfold inI64; infer_instance

/-- The `usize` value produced by the Rust cast `v as usize` of an `i64`
(two's-complement truncation to 64 bits; on negative `v` this wraps to a
huge positive number). -/
def usizeOfI64 (v : Int) : Nat := (v % 18446744073709551616).toNat

/-- The `u16` value produced by the Rust cast `v as u16` of an `i64`. -/
def u16OfI64 (v : Int) : Nat := (v % 65536).toNat

/-- The `u8` value produced by the Rust cast `v as u8` of an `i64`. -/
def u8OfI64 (v : Int) : Nat := (v % 256).toNat

/-! ## Runtime values

`src/src/eval/value.rs`, `enum Value`.  The tree-walking evaluator's
`Function` variant (which carries an `Rc<RefCell<Environment>>`) belongs to
the legacy interpreter that the specification places out of scope; it is not
constructible by the compiler or the VM and is omitted here.  The `Builtin`
variant carries a function pointer in Rust; here it carries the stable
builtin index (`len`, `first`, `last`, `rest`, `push`, `puts` are 0..5). -/

inductive Value : Type where
  | int (n : Int)
  | bool (b : Bool)
  | string (s : String)
  | null
  | letV
  | ret (v : Value)
  | array (elems : List Value)
  | builtin (idx : Nat)
  | hash (entries : List (Value × Value))
  | compiledFunction (instructions : List Nat) (numLocals : Nat) (numParameters : Nat)
  | closure (fn : Value) (free : List Value)

/-- Structural equality on runtime values: the behaviour of the derived
`PartialEq` on the Rust `Value` enum. -/
def Value.beq : Value → Value → Bool
  | .int a, .int b => a == b
  | .bool a, .bool b => a == b
  | .string a, .string b => a == b
  | .null, .null => true
  | .letV, .letV => true
  | .ret a, .ret b => a.beq b
  | .array a, .array b => listBeq a b
  | .builtin a, .builtin b => a == b
  | .hash a, .hash b => pairListBeq a b
  | .compiledFunction i a b, .compiledFunction j c d => i == j && a == c && b == d
  | .closure f a, .closure g b => f.beq g && listBeq a b
  | _, _ => false
where
  listBeq : List Value → List Value → Bool
    | [], [] => true
    | x :: xs, y :: ys => x.beq y && listBeq xs ys
    | _, _ => false
  pairListBeq : List (Value × Value) → List (Value × Value) → Bool
    | [], [] => true
    | (k, v) :: xs, (k', v') :: ys => k.beq k' && v.beq v' && pairListBeq xs ys
    | _, _ => false

mutual

theorem Value.beq_iff_eq : ∀ a b : Value, a.beq b = true ↔ a = b
  | .int a, b => by cases b <;> simp [Value.beq]
  | .bool a, b => by cases b <;> simp [Value.beq]
  | .string a, b => by cases b <;> simp [Value.beq]
  | .null, b => by cases b <;> simp [Value.beq]
  | .letV, b => by cases b <;> simp [Value.beq]
  | .ret a, b => by
      cases b <;> simp [Value.beq]
      exact Value.beq_iff_eq a _
  | .array a, b => by
      cases b <;> simp [Value.beq]
      exact Value.beq_listBeq_iff_eq a _
  | .builtin a, b => by cases b <;> simp [Value.beq]
  | .hash a, b => by
      cases b <;> simp [Value.beq]
      exact Value.beq_pairListBeq_iff_eq a _
  | .compiledFunction i a c, b => by
      cases b <;> simp [Value.beq]
      tauto
  | .closure f a, b => by
      cases b with
      | closure g c =>
        simp only [Value.beq, Bool.and_eq_true, Value.beq_iff_eq f g,
          Value.beq_listBeq_iff_eq a c, closure.injEq]
      | _ => simp [Value.beq]

theorem Value.beq_listBeq_iff_eq : ∀ a b : List Value, Value.beq.listBeq a b = true ↔ a = b
  | [], b => by cases b <;> simp [Value.beq.listBeq]
  | x :: xs, b => by
      cases b with
      | nil => simp [Value.beq.listBeq]
      | cons y ys =>
        simp only [Value.beq.listBeq, Bool.and_eq_true, Value.beq_iff_eq x y,
          Value.beq_listBeq_iff_eq xs ys, List.cons.injEq]

theorem Value.beq_pairListBeq_iff_eq :
    ∀ a b : List (Value × Value), Value.beq.pairListBeq a b = true ↔ a = b
  | [], b => by cases b <;> simp [Value.beq.pairListBeq]
  | (k, v) :: xs, b => by
      cases b with
      | nil => simp [Value.beq.pairListBeq]
      | cons y ys =>
        obtain ⟨k', v'⟩ := y
        simp only [Value.beq.pairListBeq, Bool.and_eq_true, Value.beq_iff_eq k k',
          Value.beq_iff_eq v v', Value.beq_pairListBeq_iff_eq xs ys, List.cons.injEq,
          Prod.mk.injEq, and_assoc]

end

instance : DecidableEq Value := fun a b =>
  decidable_of_iff (Value.beq a b = true) (Value.beq_iff_eq a b)

/-! ## The association-list model of `HashMap<Value, Value>`

The Rust `impl Hash for Value` hashes `Int`, `Bool` and `String` keys by
value and hashes every other variant to the same bucket (`"".hash`), so a
`HashMap<Value, Value>` behaves, observably, as a map keyed by the structural
`Eq` on `Value` — for every key kind.  `hashInsert` mirrors
`HashMap::insert` (replace the value of an `Eq`-equal key, keeping the stored
key; otherwise add the entry) and `hashGet` mirrors `HashMap::get`. -/

def hashInsert : List (Value × Value) → Value → Value → List (Value × Value)
  | [], k, v => [(k, v)]
  | (k', v') :: rest, k, v =>
      if k'.beq k then (k', v) :: rest else (k', v') :: hashInsert rest k v

def hashGet : List (Value × Value) → Value → Option Value
  | [], _ => none
  | (k', v') :: rest, k => if k'.beq k then some v' else hashGet rest k

/-! ## The bytecode ISA

`src/src/code/mod.rs`: `enum OpCode`, `Definition::from`, `TryFrom<u8> for
OpCode`, `make`, `read_operands`. -/

inductive OpCode : Type where
  | opConstant
  | opAdd
  | opSub
  | opMul
  | opDiv
  | opPop
  | opTrue
  | opFalse
  | opEqual
  | opNotEqual
  | opGreatherThan
  | opMinus
  | opBang
  | opJumpNotTruthy
  | opJump
  | opNull
  | opGetGlobal
  | opSetGlobal
  | opArray
  | opHash
  | opIndex
  | opCall
  | opReturnValue
  | opReturn
  | opGetLocal
  | opSetLocal
  | opGetBuiltin
  | opClosure
  | opGetFree
  | opCurrentClosure
  deriving DecidableEq

/-- The discriminant byte of each opcode (the Rust `op as u8`). -/
def OpCode.toByte : OpCode → Nat
  | .opConstant => 0
  | .opAdd => 1
  | .opSub => 2
  | .opMul => 3
  | .opDiv => 4
  | .opPop => 5
  | .opTrue => 6
  | .opFalse => 7
  | .opEqual => 8
  | .opNotEqual => 9
  | .opGreatherThan => 10
  | .opMinus => 11
  | .opBang => 12
  | .opJumpNotTruthy => 13
  | .opJump => 14
  | .opNull => 15
  | .opGetGlobal => 16
  | .opSetGlobal => 17
  | .opArray => 18
  | .opHash => 19
  | .opIndex => 20
  | .opCall => 21
  | .opReturnValue => 22
  | .opReturn => 23
  | .opGetLocal => 24
  | .opSetLocal => 25
  | .opGetBuiltin => 26
  | .opClosure => 27
  | .opGetFree => 28
  | .opCurrentClosure => 29

/-- `TryFrom<u8> for OpCode`: decode a byte into an opcode. -/
def OpCode.tryFromByte : Nat → Option OpCode
  | 0 => some .opConstant
  | 1 => some .opAdd
  | 2 => some .opSub
  | 3 => some .opMul
  | 4 => some .opDiv
  | 5 => some .opPop
  | 6 => some .opTrue
  | 7 => some .opFalse
  | 8 => some .opEqual
  | 9 => some .opNotEqual
  | 10 => some .opGreatherThan
  | 11 => some .opMinus
  | 12 => some .opBang
  | 13 => some .opJumpNotTruthy
  | 14 => some .opJump
  | 15 => some .opNull
  | 16 => some .opGetGlobal
  | 17 => some .opSetGlobal
  | 18 => some .opArray
  | 19 => some .opHash
  | 20 => some .opIndex
  | 21 => some .opCall
  | 22 => some .opReturnValue
  | 23 => some .opReturn
  | 24 => some .opGetLocal
  | 25 => some .opSetLocal
  | 26 => some .opGetBuiltin
  | 27 => some .opClosure
  | 28 => some .opGetFree
  | 29 => some .opCurrentClosure
  | _ => none

/-- The operand-width table of `Definition::from` (`width(vec![..])`;
opcodes built by `Definition::new` alone have no operands). -/
def operandWidths : OpCode → List Nat
  | .opConstant => [2]
  | .opJumpNotTruthy => [2]
  | .opJump => [2]
  | .opGetGlobal => [2]
  | .opSetGlobal => [2]
  | .opArray => [2]
  | .opHash => [2]
  | .opCall => [1]
  | .opGetLocal => [1]
  | .opSetLocal => [1]
  | .opGetBuiltin => [1]
  | .opClosure => [2, 1]
  | .opGetFree => [1]
  | _ => []

/-- Encode one operand at its declared width (the loop body of `make`):
width 2 is the big-endian `u16` cast, width 1 the `u8` cast.  `none` models
the `unreachable!()` arm for a width other than 1 or 2. -/
def encodeOperand (width : Nat) (v : Int) : Option (List Nat) :=
  match width with
  | 2 => some [u16OfI64 v / 256, u16OfI64 v % 256]
  | 1 => some [u8OfI64 v]
  | _ => none

/-- The operand-encoding loop of `make`: operand `idx` is encoded at
`definition.operand_widths[idx]`.  `none` models the panic of the Rust
indexing when there are more operands than declared widths. -/
def makeOperands : List Nat → List Int → Option (List Nat)
  | _, [] => some []
  | [], _ :: _ => none
  | w :: ws, v :: vs => do
      let b ← encodeOperand w v
      let rest ← makeOperands ws vs
      pure (b ++ rest)

/-- `make`: one opcode byte followed by the encoded operands. -/
def make (op : OpCode) (operands : List Int) : Option (List Nat) :=
  (makeOperands (operandWidths op) operands).map (fun bs => op.toByte :: bs)

/-- `read_operands`: decode the operands declared for `definition` from the
byte list following the opcode byte, returning the operands (as `i64`
values) and the number of bytes read.  `none` models the panic of the
slicing/`try_into().unwrap()` when the bytes run out, and the
`unreachable!()` arm for an undeclared width.  (The Rust code keeps a single
buffer and a running `offset`; consuming the buffer recursively is the same
traversal.) -/
def readOperands : List Nat → List Nat → Option (List Int × Nat)
  | [], _ => some ([], 0)
  | 2 :: ws, b1 :: b2 :: rest => do
      let (ops, n) ← readOperands ws rest
      pure ((Int.ofNat (b1 * 256 + b2)) :: ops, n + 2)
  | 1 :: ws, b :: rest => do
      let (ops, n) ← readOperands ws rest
      pure ((Int.ofNat b) :: ops, n + 1)
  | _, _ => none

/-- Decoding one instruction, as the VM dispatch and the disassembler do it:
`TryFrom<u8>` on the first byte, then `read_operands` with that opcode's
widths. -/
def decodeInstruction (bytes : List Nat) : Option (OpCode × List Int) :=
  match bytes with
  | [] => none
  | b :: rest => do
      let op ← OpCode.tryFromByte b
      let (ops, _) ← readOperands (operandWidths op) rest
      pure (op, ops)

/-- A legal operand list for an opcode: one value per declared operand, each
fitting its fixed width. -/
def LegalOperands (op : OpCode) (operands : List Int) : Prop :=
  operands.length = (operandWidths op).length ∧
    ∀ p ∈ (operandWidths op).zip operands, 0 ≤ p.2 ∧ p.2 < 2 ^ (8 * p.1)

end Monkey

namespace Monkey

/-! ## The virtual machine

`src/src/vm/mod.rs`.  `VmError` is a message string.  The operand stack is a
`List Value` with the last element on top (`sp` in the Rust code always
equals `stack.len()`: both `push`/`pop` keep them in lock step, and
`call_funtion` pushes the `num_locals` placeholders and adds `num_locals`
to `sp`).  The claims below are about single opcode executions, so each
relevant `run` arm is embedded as a step function on the state it touches. -/

/-- `STACK_SIZE`. -/
def STACK_SIZE : Nat := 2048

/-- `VmError`. -/
structure VmErr : Type where
  msg : String
  deriving DecidableEq

/-- A call frame as `Vm::run` uses it (`Frame::new(instructions,
base_pointer)`, fields `function`, `ip`, `base_pointer`).  The checked-out
`vm/frame.rs` declares a closure-holding `Frame { cl, ip, base_pointer }`
instead, which `vm/mod.rs` never constructs or reads; the claims are about
`vm/mod.rs`, so its shape is used. -/
structure Frame : Type where
  function : List Nat
  ip : Nat
  basePointer : Nat
  deriving DecidableEq

/-- `Vm::pop`: take the top of the stack or fail on an empty stack.  (The
`last_popped_element` bookkeeping does not affect the claims and is not
threaded.) -/
def popValue (stack : List Value) : Except VmErr (Value × List Value) :=
  match stack.getLast? with
  | none => .error ⟨"You try to pop on an empty stack"⟩
  | some v => .ok (v, stack.dropLast)

/-- `Vm::push`: fail with a stack overflow once `sp` reaches `STACK_SIZE`,
otherwise push. -/
def pushValue (stack : List Value) (v : Value) : Except VmErr (List Value) :=
  if stack.length ≥ STACK_SIZE then .error ⟨"Stack Overflow"⟩
  else .ok (stack ++ [v])

/-- `Vm::is_truthy`. -/
def isTruthy : Value → Bool
  | .bool b => b
  | .null => false
  | _ => true

/-- `Vm::execute_index_expression` — a total function on the popped key and
collection;  every non-matching combination falls through to `Value::Null`
(array arm with a non-integer key, the final catch-all arm), and the hash
arm looks any key kind up via structural equality. -/
def executeIndexExpression (idx : Value) (lhs : Value) : Value :=
  match lhs with
  | .array arr =>
      match idx with
      | .int i => (arr.get? (usizeOfI64 i)).getD .null
      | _ => .null
  | .hash entries => (hashGet entries idx).getD .null
  | _ => .null

/-- The `OpCode::OpIndex` arm of `Vm::run`: pop the key, pop the
collection, push `execute_index_expression`. -/
def opIndexStep (stack : List Value) : Except VmErr (List Value) :=
  match popValue stack with
  | .error e => .error e
  | .ok (idx, stack) =>
      match popValue stack with
      | .error e => .error e
      | .ok (lhs, stack) => pushValue stack (executeIndexExpression idx lhs)

/-- The loop body of `Vm::build_hash`, on the stack slice
`stack[start_idx..end_idx]`: insert key/value pairs two at a time, in
increasing stack order.  `none` models the out-of-bounds panic of the read
of `stack[idx + 1]` when the slice has odd length. -/
def buildHashSlice : List Value → List (Value × Value) → Option (List (Value × Value))
  | [], acc => some acc
  | k :: v :: rest, acc => buildHashSlice rest (hashInsert acc k v)
  | [_], _ => none

/-- `Vm::build_hash`. -/
def buildHash (slice : List Value) : Option Value :=
  (buildHashSlice slice []).map .hash

/-- Rust `i64` division `left / right`: truncated (toward-zero) quotient;
`none` models the host panic on a zero divisor and on the one overflowing
case `i64::MIN / -1`. -/
def i64Div (left right : Int) : Option Int :=
  if right = 0 then none
  else if left = minI64 ∧ right = -1 then none
  else some (Int.tdiv left right)

/-- Two's-complement wrap-around of an `i64` arithmetic result (the
release-profile behaviour of Rust `+`, `-`, `*`). -/
def wrapI64 (v : Int) : Int :=
  (v + 9223372036854775808) % 18446744073709551616 - 9223372036854775808

/-- `Vm::execute_binary_integer_operation`, as the value it pushes:
`none` models a host panic (the division panics, or the `unreachable!()`
arm for a non-arithmetic opcode). -/
def executeBinaryIntegerOperation (op : OpCode) (right left : Int) : Option Value :=
  match op with
  | .opAdd => some (.int (wrapI64 (left + right)))
  | .opSub => some (.int (wrapI64 (left - right)))
  | .opMul => some (.int (wrapI64 (left * right)))
  | .opDiv => (i64Div left right).map .int
  | _ => none

/-- The `OpCode::OpReturn` arm of `Vm::run`: pop the frame (if any), pop
`sp - base_pointer` values (leaving the stack cut at `base_pointer`), and
push `Value::Null`. -/
def opReturnStep (stack : List Value) (frames : List Frame) :
    Except VmErr (List Value × List Frame) :=
  match frames.getLast? with
  | some frame =>
      match pushValue (stack.take frame.basePointer) .null with
      | .error e => .error e
      | .ok stack => .ok (stack, frames.dropLast)
  | none =>
      match pushValue stack .null with
      | .error e => .error e
      | .ok stack => .ok (stack, frames)

/-- The `OpCode::OpReturnValue` arm of `Vm::run`: pop the return value, pop
the frame (if any), pop `sp - base_pointer` values, pop once more (the
callee below the base pointer), and push the return value back. -/
def opReturnValueStep (stack : List Value) (frames : List Frame) :
    Except VmErr (List Value × List Frame) :=
  match popValue stack with
  | .error e => .error e
  | .ok (returnValue, stack) =>
      match frames.getLast? with
      | some frame =>
          (match popValue (stack.take frame.basePointer) with
          | .error e => .error e
          | .ok (_, stack) =>
              match pushValue stack returnValue with
              | .error e => .error e
              | .ok stack => .ok (stack, frames.dropLast))
      | none =>
          match popValue stack with
          | .error e => .error e
          | .ok (_, stack) =>
              match pushValue stack returnValue with
              | .error e => .error e
              | .ok stack => .ok (stack, frames)

/-- The `OpCode::OpJumpNotTruthy` arm of `Vm::run`, as the instruction
pointer at the start of the next loop iteration: the arm advances `ip` by 2
over the operand, pops the condition, and on a non-truthy condition sets
`ip` to `(position - 1)`; the loop footer then adds 1.  `none` models the
panic of the `u16` subtraction `position - 1` when the operand is 0. -/
def opJumpNotTruthyNewIp (position : Nat) (ip : Nat) (condition : Value) : Option Nat :=
  if isTruthy condition then some (ip + 2 + 1)
  else if position = 0 then none
  else some (position - 1 + 1)

end Monkey

namespace Monkey

/-! ## The symbol table

`src/src/compiler/symbol_table.rs`.  The Rust table is a tree of
`Rc<RefCell<SymbolTable>>` nodes linked through `outer`; the compiler holds
the innermost node.  In the embedding a table owns its outer chain, and
every operation that mutates a node returns the updated chain.  `store`
(`HashMap<String, Symbol>`) is an association list with replace-on-insert. -/

inductive SymbolScope : Type where
  | globalScope
  | localScope
  | builtinScope
  | freeScope
  | functionScope
  deriving DecidableEq

structure Symbol : Type where
  name : String
  scope : SymbolScope
  index : Nat
  deriving DecidableEq

/-- `HashMap<String, Symbol>::get`. -/
def storeGet : List (String × Symbol) → String → Option Symbol
  | [], _ => none
  | (n, s) :: rest, name => if n = name then some s else storeGet rest name

/-- `HashMap<String, Symbol>::insert`. -/
def storeInsert : List (String × Symbol) → String → Symbol → List (String × Symbol)
  | [], name, sym => [(name, sym)]
  | (n, s) :: rest, name, sym =>
      if n = name then (n, sym) :: rest else (n, s) :: storeInsert rest name sym

inductive SymbolTable : Type where
  | mk (outer : Option SymbolTable) (store : List (String × Symbol))
      (numDefinitions : Nat) (freeSymbols : List Symbol)

def SymbolTable.outer : SymbolTable → Option SymbolTable
  | .mk o _ _ _ => o

def SymbolTable.store : SymbolTable → List (String × Symbol)
  | .mk _ s _ _ => s

def SymbolTable.numDefinitions : SymbolTable → Nat
  | .mk _ _ n _ => n

def SymbolTable.freeSymbols : SymbolTable → List Symbol
  | .mk _ _ _ f => f

/-- `SymbolTable::new`. -/
def SymbolTable.new : SymbolTable := .mk none [] 0 []

/-- `SymbolTable::new_with_enclosed`. -/
def SymbolTable.newWithEnclosed (outer : SymbolTable) : SymbolTable :=
  .mk (some outer) [] 0 []

/-- `SymbolTable::define`. -/
def SymbolTable.define (t : SymbolTable) (name : String) : Symbol × SymbolTable :=
  match t with
  | .mk outer store numDefinitions freeSymbols =>
      let scope := if outer.isSome then SymbolScope.localScope else SymbolScope.globalScope
      let symbol : Symbol := ⟨name, scope, numDefinitions⟩
      (symbol, .mk outer (storeInsert store name symbol) (numDefinitions + 1) freeSymbols)

/-- `SymbolTable::define_builtin`. -/
def SymbolTable.defineBuiltin (t : SymbolTable) (index : Nat) (name : String) :
    Symbol × SymbolTable :=
  match t with
  | .mk outer store numDefinitions freeSymbols =>
      let symbol : Symbol := ⟨name, .builtinScope, index⟩
      (symbol, .mk outer (storeInsert store name symbol) numDefinitions freeSymbols)

/-- `SymbolTable::define_free`: append the original symbol to the
free-capture list and rebind the name to a `Free` symbol whose index is the
capture slot. -/
def SymbolTable.defineFree (t : SymbolTable) (original : Symbol) : Symbol × SymbolTable :=
  match t with
  | .mk outer store numDefinitions freeSymbols =>
      let freeSymbols := freeSymbols ++ [original]
      let symbol : Symbol := ⟨original.name, .freeScope, freeSymbols.length - 1⟩
      (symbol, .mk outer (storeInsert store original.name symbol) numDefinitions freeSymbols)

/-- `SymbolTable::define_function`. -/
def SymbolTable.defineFunction (t : SymbolTable) (name : String) :
    Option Symbol × SymbolTable :=
  match t with
  | .mk outer store numDefinitions freeSymbols =>
      let symbol : Symbol := ⟨name, .functionScope, 0⟩
      (some symbol, .mk outer (storeInsert store name symbol) numDefinitions freeSymbols)

/-- `SymbolTable::resolve`.

The Rust body is

  `self.store.get(name).cloned().or(self.outer.clone().and_then(|store| ...))`

and `Option::or` takes its alternative *by value*: the whole outer lookup —
including the `define_free` promotion of a `Local`/`Free` hit — runs before
`or` chooses, even when the name is already bound in `self.store`.  The
embedding reproduces that evaluation order: first the local lookup is
captured, then the outer chain is resolved (mutating it), then a
`Global`/`Builtin`/`Function` hit is passed through unchanged while any
other hit is promoted with `define_free`, and only then does `or` pick the
captured local result if there was one. -/
def SymbolTable.resolve (t : SymbolTable) (name : String) : Option Symbol × SymbolTable :=
  match t with
  | .mk outer store numDefinitions freeSymbols =>
      let localHit := storeGet store name
      match outer with
      | none => (localHit.or none, .mk none store numDefinitions freeSymbols)
      | some out =>
          match out.resolve name with
          | (none, out) => (localHit.or none, .mk (some out) store numDefinitions freeSymbols)
          | (some symbol, out) =>
              if symbol.scope = .globalScope ∨ symbol.scope = .builtinScope ∨
                  symbol.scope = .functionScope then
                (localHit.or (some symbol), .mk (some out) store numDefinitions freeSymbols)
              else
                let (freeSym, t) :=
                  SymbolTable.defineFree (.mk (some out) store numDefinitions freeSymbols) symbol
                (localHit.or (some freeSym), t)

end Monkey

namespace Monkey

/-! ## The abstract syntax tree

`src/src/ast/operator.rs`, `src/src/ast/expression.rs`,
`src/src/ast/statement.rs`, `src/src/ast/program.rs`.  (`Expression::Fn`
carries a `name` field in the AST; the parser and compiler in the
checked-out sources construct and destructure the variant without it, so
both ignore it here: the parser fills it with `""`.) -/

inductive PrefixOperator : Type where
  | not
  | negative
  deriving DecidableEq

inductive InfixOperator : Type where
  | add
  | sub
  | mul
  | div
  | equal
  | notEqual
  | greaterThan
  | lessThan
  | modulo
  | greaterThanOrEqual
  | lessThanOrEqual
  deriving DecidableEq

mutual

inductive Expression : Type where
  | int (n : Int)
  | identifier (name : String)
  | string (s : String)
  | prefixE (operator : PrefixOperator) (rhs : Expression)
  | bool (b : Bool)
  | infixE (lhs : Expression) (operator : InfixOperator) (rhs : Expression)
  | ifE (condition : Expression) (consequence : List Statement)
      (alternative : Option (List Statement))
  | fn (name : String) (parameters : List String) (body : List Statement)
  | call (function : Expression) (arguments : List Expression)
  | array (elems : List Expression)
  | index (lhs : Expression) (idx : Expression)
  | hash (pairs : List (Expression × Expression))

inductive Statement : Type where
  | expression (e : Expression)
  | letS (name : String) (value : Expression)
  | ret (e : Expression)
  | block (stmts : List Statement)

end

/-! ## The compiler

`src/src/compiler/mod.rs`.  The Rust compiler keeps `scopes: Vec<CompilationScope>`
with `scope_idx` always the last index; the embedding splits that vector into
the current scope and the stack of enclosing ones.  `CompilerError` is a
message string in Rust; here the one deliberately constructed error
(`undefined variable: ...`) is a constructor of its own, and `panicked`
stands for the host aborts (`unreachable!()`, `expect`, out-of-bounds
indexing) and for the non-exhaustive `SymbolScope` matches of the
checked-out sources. -/

inductive CompErr : Type where
  | undefinedVariable (name : String)
  | panicked (msg : String)
  deriving DecidableEq

structure EmittedInstruction : Type where
  op : OpCode
  position : Nat
  deriving DecidableEq

structure CompilationScope : Type where
  instructions : List Nat
  lastInstruction : Option EmittedInstruction
  previousInstruction : Option EmittedInstruction
  deriving DecidableEq

/-- `CompilationScope::default()`. -/
def CompilationScope.init : CompilationScope := ⟨[], none, none⟩

structure CompState : Type where
  constants : List Value
  symbolTable : SymbolTable
  scope : CompilationScope
  outerScopes : List CompilationScope

/-- `Compiler::new()`. -/
def CompState.new : CompState := ⟨[], SymbolTable.new, CompilationScope.init, []⟩

/-- `Compiler::add_instruction`: returns the position of the new
instruction and appends its bytes to the current scope. -/
def addInstruction (s : CompState) (ins : List Nat) : Nat × CompState :=
  (s.scope.instructions.length,
    { s with scope := { s.scope with instructions := s.scope.instructions ++ ins } })

/-- `Compiler::set_last_instruction`. -/
def setLastInstruction (s : CompState) (op : OpCode) (position : Nat) : CompState :=
  { s with scope := { s.scope with
      previousInstruction := s.scope.lastInstruction,
      lastInstruction := some ⟨op, position⟩ } }

/-- `Compiler::emit`. -/
def emit (s : CompState) (op : OpCode) (operands : List Int) :
    Except CompErr (Nat × CompState) :=
  match make op operands with
  | none => .error (.panicked "make: more operands than declared widths")
  | some ins =>
      let (position, s) := addInstruction s ins
      .ok (position, setLastInstruction s op position)

/-- `emit` when the returned position is not used. -/
def emitD (s : CompState) (op : OpCode) (operands : List Int) : Except CompErr CompState :=
  (emit s op operands).map (·.2)

/-- `Compiler::add_constant`: push the value, return `len - 1`. -/
def addConstant (s : CompState) (v : Value) : Int × CompState :=
  let s := { s with constants := s.constants ++ [v] }
  ((s.constants.length : Int) - 1, s)

/-- `Compiler::last_instruction_is`. -/
def lastInstructionIs (s : CompState) (op : OpCode) : Bool :=
  if s.scope.instructions.isEmpty then false
  else
    match s.scope.lastInstruction with
    | none => false
    | some last => last.op = op

/-- `Compiler::remove_last_pop`: truncate the buffer at the last
instruction's position and demote `previous` to `last` (the `unwrap` of a
missing last instruction is a host panic). -/
def removeLastPop (s : CompState) : Except CompErr CompState :=
  match s.scope.lastInstruction with
  | none => .error (.panicked "remove_last_pop: unwrap on None")
  | some last =>
      .ok { s with scope := { s.scope with
              instructions := s.scope.instructions.take last.position,
              lastInstruction := s.scope.previousInstruction } }

/-- `Compiler::replace_instruction`: overwrite bytes in place (writing past
the end of the buffer is a host panic). -/
def replaceInstruction (s : CompState) (position : Nat) (newInstruction : List Nat) :
    Except CompErr CompState :=
  if position + newInstruction.length ≤ s.scope.instructions.length then
    .ok { s with scope := { s.scope with
            instructions :=
              s.scope.instructions.take position ++ newInstruction ++
                s.scope.instructions.drop (position + newInstruction.length) } }
  else .error (.panicked "replace_instruction: index out of bounds")

/-- `Compiler::replace_last_pop_with_return` (`if let Some` — a no-op
without a last instruction). -/
def replaceLastPopWithReturn (s : CompState) : Except CompErr CompState :=
  match s.scope.lastInstruction with
  | none => .ok s
  | some last =>
      let s := { s with scope := { s.scope with
                   lastInstruction := some ⟨.opReturnValue, last.position⟩ } }
      match make .opReturnValue [] with
      | none => .error (.panicked "make")
      | some ins => replaceInstruction s last.position ins

/-- `Compiler::change_operand`: re-read the opcode byte at the position
(panicking if it is no longer a valid opcode) and overwrite the instruction
with the re-encoded operands. -/
def changeOperand (s : CompState) (opPosition : Nat) (operand : List Int) :
    Except CompErr CompState :=
  match s.scope.instructions.get? opPosition with
  | none => .error (.panicked "change_operand: index out of bounds")
  | some b =>
      match OpCode.tryFromByte b with
      | none => .error (.panicked "your instruction become invalid")
      | some op =>
          match make op operand with
          | none => .error (.panicked "make")
          | some newInstruction => replaceInstruction s opPosition newInstruction

/-- `Compiler::enter_scope`. -/
def enterScope (s : CompState) : CompState :=
  { constants := s.constants,
    symbolTable := SymbolTable.newWithEnclosed s.symbolTable,
    scope := CompilationScope.init,
    outerScopes := s.scope :: s.outerScopes }

/-- `Compiler::leave_scope`: return the finished scope's instructions and
restore the outer symbol table and scope (missing outers are host panics:
the `expect` and the `scope_idx` underflow). -/
def leaveScope (s : CompState) : Except CompErr (List Nat × CompState) :=
  match s.symbolTable.outer with
  | none => .error (.panicked "should exist an outer symbol table")
  | some outerTable =>
      match s.outerScopes with
      | [] => .error (.panicked "leave_scope: scope_idx underflow")
      | sc :: rest =>
          .ok (s.scope.instructions,
            { constants := s.constants, symbolTable := outerTable,
              scope := sc, outerScopes := rest })

mutual

/-- `Compiler::compile_expression`.  The mutual recursion is driven by a
fuel argument (Lean needs a structurally decreasing argument for nested
mutual recursion to compute definitionally); the Rust recursion descends
the AST, so any fuel at least the program's nesting depth behaves
identically, and exhaustion is reported as a distinguished abort. -/
def compileExpression : Nat → Expression → CompState → Except CompErr CompState
  | 0, _, _ => .error (.panicked "fuel exhausted")
  | fuel + 1, e, s =>
    match e, s with
    | .int n, s =>
        let (idx, s) := addConstant s (.int n)
        emitD s .opConstant [idx]
    | .identifier name, s =>
        let (symbol?, table) := s.symbolTable.resolve name
        let s := { s with symbolTable := table }
        match symbol? with
        | some symbol =>
            match symbol.scope with
            | .globalScope => emitD s .opGetGlobal [(symbol.index : Int)]
            | .localScope => emitD s .opGetLocal [(symbol.index : Int)]
            | _ => .error (.panicked "non-exhaustive match on SymbolScope")
        | none => .error (.undefinedVariable name)
    | .string v, s =>
        let (idx, s) := addConstant s (.string v)
        emitD s .opConstant [idx]
    | .prefixE operator rhs, s => do
        let s ← compileExpression fuel rhs s
        match operator with
        | .not => emitD s .opBang []
        | .negative => emitD s .opMinus []
    | .bool b, s =>
        match b with
        | true => emitD s .opTrue []
        | false => emitD s .opFalse []
    | .infixE lhs operator rhs, s =>
        if operator = .lessThan then do
          let s ← compileExpression fuel rhs s
          let s ← compileExpression fuel lhs s
          emitD s .opGreatherThan []
        else do
          let s ← compileExpression fuel lhs s
          let s ← compileExpression fuel rhs s
          match operator with
          | .add => emitD s .opAdd []
          | .sub => emitD s .opSub []
          | .mul => emitD s .opMul []
          | .div => emitD s .opDiv []
          | .equal => emitD s .opEqual []
          | .notEqual => emitD s .opNotEqual []
          | .greaterThan => emitD s .opGreatherThan []
          | _ => .error (.panicked "unreachable: InfixOperator without an arm")
    | .ifE condition consequence alternative, s => do
        let s ← compileExpression fuel condition s
        let (jumpNotTruthyPos, s) ← emit s .opJumpNotTruthy [9999]
        let s ← compileStatement fuel (.block consequence) s
        let s ← if lastInstructionIs s .opPop then removeLastPop s else pure s
        let (jumpPos, s) ← emit s .opJump [9999]
        let afterConsequencePos := s.scope.instructions.length
        let s ← changeOperand s jumpNotTruthyPos [(afterConsequencePos : Int)]
        let s ←
          match alternative with
          | some alt => do
              let s ← compileStatement fuel (.block alt) s
              if lastInstructionIs s .opPop then removeLastPop s else pure s
          | none => emitD s .opNull []
        let afterAlternativePos := s.scope.instructions.length
        changeOperand s jumpPos [(afterAlternativePos : Int)]
    | .fn _name parameters body, s => do
        let s := enterScope s
        let numParameters := parameters.length
        let s := parameters.foldl
          (fun s p => { s with symbolTable := (s.symbolTable.define p).2 }) s
        let s ← compileStatement fuel (.block body) s
        let s ← if lastInstructionIs s .opPop then replaceLastPopWithReturn s else pure s
        let s ← if !lastInstructionIs s .opReturnValue then emitD s .opReturn [] else pure s
        let numLocals := s.symbolTable.numDefinitions
        let (instructions, s) ← leaveScope s
        let (idx, s) := addConstant s (.compiledFunction instructions numLocals numParameters)
        emitD s .opConstant [idx]
    | .call function arguments, s => do
        let s ← compileExpression fuel function s
        let argumentsLen := arguments.length
        let s ← compileExpressionList fuel arguments s
        emitD s .opCall [(argumentsLen : Int)]
    | .array values, s => do
        let len := values.length
        let s ← compileExpressionList fuel values s
        emitD s .opArray [(len : Int)]
    | .index lhs idx, s => do
        let s ← compileExpression fuel lhs s
        let s ← compileExpression fuel idx s
        emitD s .opIndex []
    | .hash values, s => do
        let s ← compileHashPairs fuel values s
        emitD s .opHash [(2 * values.length : Int)]

/-- `Compiler::compile_statement`. -/
def compileStatement : Nat → Statement → CompState → Except CompErr CompState
  | 0, _, _ => .error (.panicked "fuel exhausted")
  | fuel + 1, st, s =>
    match st, s with
    | .expression e, s => do
        let s ← compileExpression fuel e s
        emitD s .opPop []
    | .letS name value, s => do
        let s ← compileExpression fuel value s
        let (symbol, table) := s.symbolTable.define name
        let s := { s with symbolTable := table }
        match symbol.scope with
        | .globalScope => emitD s .opSetGlobal [(symbol.index : Int)]
        | .localScope => emitD s .opSetLocal [(symbol.index : Int)]
        | _ => .error (.panicked "non-exhaustive match on SymbolScope")
    | .ret e, s => do
        let s ← compileExpression fuel e s
        emitD s .opReturnValue []
    | .block stmts, s => compileStatementList fuel stmts s

/-- The statement loops of `compile_program` and the `Block` arm. -/
def compileStatementList : Nat → List Statement → CompState → Except CompErr CompState
  | 0, _, _ => .error (.panicked "fuel exhausted")
  | _ + 1, [], s => .ok s
  | fuel + 1, st :: rest, s => do
      let s ← compileStatement fuel st s
      compileStatementList fuel rest s

/-- The argument/element loops of the `Call` and `Array` arms. -/
def compileExpressionList : Nat → List Expression → CompState → Except CompErr CompState
  | 0, _, _ => .error (.panicked "fuel exhausted")
  | _ + 1, [], s => .ok s
  | fuel + 1, e :: rest, s => do
      let s ← compileExpression fuel e s
      compileExpressionList fuel rest s

/-- The key/value loop of the `Hash` arm. -/
def compileHashPairs : Nat → List (Expression × Expression) → CompState →
    Except CompErr CompState
  | 0, _, _ => .error (.panicked "fuel exhausted")
  | _ + 1, [], s => .ok s
  | fuel + 1, (k, v) :: rest, s => do
      let s ← compileExpression fuel k s
      let s ← compileExpression fuel v s
      compileHashPairs fuel rest s

end

/-- `Compiler::compile_program`. -/
def compileProgram (fuel : Nat) (statements : List Statement) (s : CompState) :
    Except CompErr CompState :=
  compileStatementList fuel statements s

/-- The instruction stream `Compiler::bytecode()` hands to the VM: the
current scope's buffer. -/
def bytecodeInstructions (s : CompState) : List Nat :=
  s.scope.instructions

end Monkey

namespace Monkey

/-! ## Tokens and the lexer

`src/src/lexer/mod.rs`.  The lexer state (`input`, `position`,
`read_position`, `ch`) walks a `Vec<char>`; the embedding carries the
remaining character list, whose head plays `ch` (an empty list plays the
`'\0'` end sentinel).  Positions, which only feed diagnostics, are not
tracked. -/

/-- Modelled from the spec: the token type.  `src/src/lexer/mod.rs` declares
`pub mod token` but `lexer/token.rs` is not among the checked-out files; the
variants are those the lexer and parser construct and match on, plus the
string/bracket/colon tokens the parser expects (spec section 3,
"Tokens"). -/
inductive Token : Type where
  | ident (s : String)
  | int (n : Int)
  | string (s : String)
  | assign
  | plus
  | minus
  | bang
  | slash
  | asterisk
  | percent
  | eq
  | notEq
  | lt
  | ltorEq
  | gt
  | gtorEq
  | semicolon
  | colon
  | comma
  | lparen
  | rparen
  | lbrace
  | rbrace
  | lbracket
  | rbracket
  | function
  | letT
  | trueT
  | falseT
  | ifT
  | elseT
  | returnT
  | eof
  | illegal
  deriving DecidableEq

/-- `Lexer::is_digit` (`char::is_ascii_digit`). -/
def isDigitCh (c : Char) : Bool := c.isDigit

/-- `Lexer::is_letter` (`char::is_alphabetic` — restricted here to the
ASCII letters, which is all the claims touch — or an underscore). -/
def isLetterCh (c : Char) : Bool := c.isAlpha || c = '_'

/-- `Lexer::skip_withespace`. -/
def skipWhitespace : List Char → List Char
  | [] => []
  | c :: rest => if c.isWhitespace then skipWhitespace rest else c :: rest

/-- The numeric value of a base-10 digit run. -/
def digitsVal (ds : List Char) : Nat :=
  ds.foldl (fun acc c => acc * 10 + (c.toNat - 48)) 0

/-- Rust `str::parse::<i64>` on a non-empty base-10 digit run: the value
when it fits in an `i64`, otherwise the overflow error. -/
def parseI64Digits (ds : List Char) : Option Int :=
  if (digitsVal ds : Int) ≤ maxI64 then some (digitsVal ds) else none

/-- `Lexer::read_digit`: collect the digit run and parse it;  `none` models
the `.expect("parse the string to i64")` host panic on overflow. -/
def readDigit (input : List Char) : Option (Token × List Char) :=
  match parseI64Digits (input.takeWhile isDigitCh) with
  | none => none
  | some n => some (.int n, input.dropWhile isDigitCh)

/-- `Lexer::read_identifier`, with the keyword table. -/
def readIdentifier (input : List Char) : Token × List Char :=
  let ident := String.mk (input.takeWhile isLetterCh)
  let token :=
    match ident with
    | "fn" => Token.function
    | "let" => Token.letT
    | "true" => Token.trueT
    | "false" => Token.falseT
    | "if" => Token.ifT
    | "else" => Token.elseT
    | "return" => Token.returnT
    | _ => Token.ident ident
  (token, input.dropWhile isLetterCh)

/-- `Lexer::next_token`: skip white space, then dispatch on the current
character (with one character of lookahead for the two-character
operators).  `none` models the host panic of `read_digit` on an integer
literal that overflows `i64`.  The checked-out lexer has no arms for
brackets, colons or string literals; those characters fall through to
`Token::Illegal`. -/
def nextToken (input : List Char) : Option (Token × List Char) :=
  match skipWhitespace input with
  | [] => some (.eof, [])
  | c :: rest =>
      if c = '=' then
        if rest.headD '\x00' = '=' then some (.eq, rest.tail) else some (.assign, rest)
      else if c = '+' then some (.plus, rest)
      else if c = '-' then some (.minus, rest)
      else if c = '!' then
        if rest.headD '\x00' = '=' then some (.notEq, rest.tail) else some (.bang, rest)
      else if c = '/' then some (.slash, rest)
      else if c = '*' then some (.asterisk, rest)
      else if c = '%' then some (.percent, rest)
      else if c = '>' then
        if rest.headD '\x00' = '=' then some (.gtorEq, rest.tail) else some (.gt, rest)
      else if c = '<' then
        if rest.headD '\x00' = '=' then some (.ltorEq, rest.tail) else some (.lt, rest)
      else if c = ';' then some (.semicolon, rest)
      else if c = '(' then some (.lparen, rest)
      else if c = ')' then some (.rparen, rest)
      else if c = ',' then some (.comma, rest)
      else if c = '\x7b' then some (.lbrace, rest)
      else if c = '\x7d' then some (.rbrace, rest)
      else if c = '\x00' then some (.eof, rest)
      else if isDigitCh c then readDigit (c :: rest)
      else if isLetterCh c then some (readIdentifier (c :: rest))
      else some (.illegal, rest)

/-- Run the lexer to end of input, collecting the token stream the parser
consumes (the `eof` token is not included; fuel bounds the number of
tokens).  `none` models a host panic of `next_token`. -/
def lexAll : Nat → List Char → Option (List Token)
  | 0, _ => none
  | fuel + 1, input =>
      match nextToken input with
      | none => none
      | some (.eof, _) => some []
      | some (t, rest) => (lexAll fuel rest).map (fun ts => t :: ts)

/-! ## The Pratt parser

`src/src/parser/mod.rs` and `src/src/parser/precedence.rs`.  The parser
pulls `(token, position)` pairs from the lexer; the embedding feeds it a
token list (positions only decorate error messages and are dropped; a
drained list keeps yielding `eof`, as the lexer does at end of input).
Rust's `?` operator propagates an `Err` while keeping the mutations made to
`self` so far, so the embedded error value carries the parser state at the
failure.  The mutual recursion of `parse_expression` is bounded by a fuel
argument: running out of fuel is an error, and every parse that the Rust
parser finishes succeeds under enough fuel. -/

inductive Precedence : Type where
  | lowest
  | equals
  | lessGreater
  | sum
  | product
  | prefixP
  | call
  | index
  deriving DecidableEq

/-- The discriminants 1..8 that `PartialOrd` compares. -/
def Precedence.toNat : Precedence → Nat
  | .lowest => 1
  | .equals => 2
  | .lessGreater => 3
  | .sum => 4
  | .product => 5
  | .prefixP => 6
  | .call => 7
  | .index => 8

/-- `From<&Token> for Precedence`. -/
def Precedence.ofToken : Token → Precedence
  | .eq => .equals
  | .notEq => .equals
  | .lt => .lessGreater
  | .ltorEq => .lessGreater
  | .gt => .lessGreater
  | .gtorEq => .lessGreater
  | .plus => .sum
  | .minus => .sum
  | .slash => .product
  | .asterisk => .product
  | .lparen => .call
  | .lbracket => .index
  | _ => .lowest

structure ParserState : Type where
  currentToken : Token
  peekToken : Token
  rest : List Token
  errors : List String
  deriving DecidableEq

/-- A parse error: the message and the parser state at the failure. -/
def ParseFailure : Type := String × ParserState

/-- `Parser::new`: prime `current` and `peek` from the stream. -/
def ParserState.new (tokens : List Token) : ParserState :=
  { currentToken := tokens.headD .eof,
    peekToken := (tokens.drop 1).headD .eof,
    rest := tokens.drop 2,
    errors := [] }

/-- `Parser::next_token`. -/
def pNext (st : ParserState) : ParserState :=
  { currentToken := st.peekToken,
    peekToken := st.rest.headD .eof,
    rest := st.rest.tail,
    errors := st.errors }

/-- `Parser::assert_peek`. -/
def assertPeek (st : ParserState) (expected : Token) : Except ParseFailure ParserState :=
  if st.peekToken = expected then .ok (pNext st)
  else .error ("expected another token", st)

mutual

/-- `Parser::parse_expression`. -/
def parseExpressionF : Nat → Precedence → ParserState →
    Except ParseFailure (Expression × ParserState)
  | 0, _, st => .error ("fuel exhausted", st)
  | fuel + 1, precedence, st => do
      let (lhs, st) ← parsePrefixForm fuel st
      parseInfixLoop fuel precedence lhs st

/-- The `while` loop of `parse_expression`. -/
def parseInfixLoop : Nat → Precedence → Expression → ParserState →
    Except ParseFailure (Expression × ParserState)
  | 0, _, _, st => .error ("fuel exhausted", st)
  | fuel + 1, precedence, lhs, st =>
      if st.peekToken ≠ .semicolon ∧
          precedence.toNat < (Precedence.ofToken st.peekToken).toNat then do
        let (lhs, st) ← parseInfixForm fuel lhs (pNext st)
        parseInfixLoop fuel precedence lhs st
      else .ok (lhs, st)

/-- `Parser::parse_prefix`. -/
def parsePrefixForm : Nat → ParserState → Except ParseFailure (Expression × ParserState)
  | 0, st => .error ("fuel exhausted", st)
  | fuel + 1, st =>
      match st.currentToken with
      | .string s => .ok (.string s, st)
      | .ident v => .ok (.identifier v, st)
      | .int v => .ok (.int v, st)
      | .falseT => .ok (.bool false, st)
      | .trueT => .ok (.bool true, st)
      | .minus => parsePrefixExpression fuel st
      | .bang => parsePrefixExpression fuel st
      | .lbracket => parseArrayLiteral fuel st
      | .lbrace => parseHashLiteral fuel st
      | .lparen => parseGroupedExpression fuel st
      | .ifT => parseIfExpression fuel st
      | .function => parseFunctionLiteral fuel st
      | _ => .error ("i dont now what is this", st)

/-- `Parser::parse_prefix_expression`. -/
def parsePrefixExpression : Nat → ParserState → Except ParseFailure (Expression × ParserState)
  | 0, st => .error ("fuel exhausted", st)
  | fuel + 1, st => do
      let operator ←
        match st.currentToken with
        | .bang => Except.ok PrefixOperator.not
        | .minus => Except.ok PrefixOperator.negative
        | _ => Except.error ("this is not a valid PrefixOperator", st)
      let st := pNext st
      let (rhs, st) ← parseExpressionF fuel .prefixP st
      .ok (.prefixE operator rhs, st)

/-- `Parser::parse_grouped_expression`. -/
def parseGroupedExpression : Nat → ParserState → Except ParseFailure (Expression × ParserState)
  | 0, st => .error ("fuel exhausted", st)
  | fuel + 1, st => do
      let st := pNext st
      let (expression, st) ← parseExpressionF fuel .lowest st
      if st.peekToken ≠ .rparen then .error ("expected Token::Rparen", st)
      else .ok (expression, pNext st)

/-- `Parser::parse_block_statement` (the `next_token` before the loop, then
the loop). -/
def parseBlockStatement : Nat → ParserState →
    Except ParseFailure (List Statement × ParserState)
  | 0, st => .error ("fuel exhausted", st)
  | fuel + 1, st => parseBlockLoop fuel [] (pNext st)

/-- The statement loop of `parse_block_statement`. -/
def parseBlockLoop : Nat → List Statement → ParserState →
    Except ParseFailure (List Statement × ParserState)
  | 0, _, st => .error ("fuel exhausted", st)
  | fuel + 1, acc, st =>
      if st.currentToken ≠ .rbrace ∧ st.currentToken ≠ .eof then do
        let (stmt, st) ← parseStatementF fuel st
        parseBlockLoop fuel (acc ++ [stmt]) (pNext st)
      else .ok (acc, st)

/-- `Parser::parse_if_expression`. -/
def parseIfExpression : Nat → ParserState → Except ParseFailure (Expression × ParserState)
  | 0, st => .error ("fuel exhausted", st)
  | fuel + 1, st => do
      let st ← assertPeek st .lparen
      let st := pNext st
      let (condition, st) ← parseExpressionF fuel .lowest st
      let st ← assertPeek st .rparen
      let st ← assertPeek st .lbrace
      let (consequence, st) ← parseBlockStatement fuel st
      if st.peekToken = .elseT then do
        let st := pNext st
        let st ← assertPeek st .lbrace
        let (alternative, st) ← parseBlockStatement fuel st
        .ok (.ifE condition consequence (some alternative), st)
      else .ok (.ifE condition consequence none, st)

/-- `Parser::parse_function_literal` (the AST `name` field, which this
parser does not fill, is `""`). -/
def parseFunctionLiteral : Nat → ParserState → Except ParseFailure (Expression × ParserState)
  | 0, st => .error ("fuel exhausted", st)
  | fuel + 1, st => do
      let st ← assertPeek st .lparen
      let (parameters, st) ← parseFunctionParameters fuel st
      let st ← assertPeek st .lbrace
      let (body, st) ← parseBlockStatement fuel st
      .ok (.fn "" parameters body, st)

/-- `Parser::parse_function_parameters`. -/
def parseFunctionParameters : Nat → ParserState →
    Except ParseFailure (List String × ParserState)
  | 0, st => .error ("fuel exhausted", st)
  | fuel + 1, st =>
      let st := pNext st
      if st.currentToken = .rparen then .ok ([], st)
      else
        match st.currentToken with
        | .ident param => do
            let (parameters, st) ← parseParamsLoop fuel [param] st
            let st ← assertPeek st .rparen
            .ok (parameters, st)
        | _ => .error ("expected Token::Ident", st)

/-- The `while peek == Comma` loop of `parse_function_parameters`. -/
def parseParamsLoop : Nat → List String → ParserState →
    Except ParseFailure (List String × ParserState)
  | 0, _, st => .error ("fuel exhausted", st)
  | fuel + 1, acc, st =>
      if st.peekToken = .comma then
        let st := pNext (pNext st)
        match st.currentToken with
        | .ident param => parseParamsLoop fuel (acc ++ [param]) st
        | _ => .error ("expected Token::Ident", st)
      else .ok (acc, st)

/-- `Parser::parse_expression_list`. -/
def parseExpressionListF : Nat → Token → ParserState →
    Except ParseFailure (List Expression × ParserState)
  | 0, _, st => .error ("fuel exhausted", st)
  | fuel + 1, endToken, st => do
      let st := pNext st
      if st.currentToken = endToken then .ok ([], st)
      else do
        let (first, st) ← parseExpressionF fuel .lowest st
        let (list, st) ← parseExprListLoop fuel [first] st
        let st ← assertPeek st endToken
        .ok (list, st)

/-- The `while peek == Comma` loop of `parse_expression_list`. -/
def parseExprListLoop : Nat → List Expression → ParserState →
    Except ParseFailure (List Expression × ParserState)
  | 0, _, st => .error ("fuel exhausted", st)
  | fuel + 1, acc, st =>
      if st.peekToken = .comma then do
        let st := pNext (pNext st)
        let (e, st) ← parseExpressionF fuel .lowest st
        parseExprListLoop fuel (acc ++ [e]) st
      else .ok (acc, st)

/-- `Parser::parse_array_literal`. -/
def parseArrayLiteral : Nat → ParserState → Except ParseFailure (Expression × ParserState)
  | 0, st => .error ("fuel exhausted", st)
  | fuel + 1, st => do
      let (elements, st) ← parseExpressionListF fuel .rbracket st
      .ok (.array elements, st)

/-- `Parser::parse_hash_literal`. -/
def parseHashLiteral : Nat → ParserState → Except ParseFailure (Expression × ParserState)
  | 0, st => .error ("fuel exhausted", st)
  | fuel + 1, st => do
      let (pairs, st) ← parseHashLoop fuel [] st
      let st ← assertPeek st .rbrace
      .ok (.hash pairs, st)

/-- The `while peek != Rbrace` loop of `parse_hash_literal`. -/
def parseHashLoop : Nat → List (Expression × Expression) → ParserState →
    Except ParseFailure (List (Expression × Expression) × ParserState)
  | 0, _, st => .error ("fuel exhausted", st)
  | fuel + 1, acc, st =>
      if st.peekToken ≠ .rbrace then do
        let st := pNext st
        let (key, st) ← parseExpressionF fuel .lowest st
        let st ← assertPeek st .colon
        let st := pNext st
        let (value, st) ← parseExpressionF fuel .lowest st
        let acc := acc ++ [(key, value)]
        let st ←
          if st.peekToken ≠ .rbrace then assertPeek st .comma
          else pure st
        parseHashLoop fuel acc st
      else .ok (acc, st)

/-- `Parser::parse_index_expression`. -/
def parseIndexExpression : Nat → Expression → ParserState →
    Except ParseFailure (Expression × ParserState)
  | 0, _, st => .error ("fuel exhausted", st)
  | fuel + 1, lhs, st => do
      let st := pNext st
      let (idx, st) ← parseExpressionF fuel .lowest st
      let st ← assertPeek st .rbracket
      .ok (.index lhs idx, st)

/-- `Parser::parse_call_expression`. -/
def parseCallExpression : Nat → Expression → ParserState →
    Except ParseFailure (Expression × ParserState)
  | 0, _, st => .error ("fuel exhausted", st)
  | fuel + 1, function, st => do
      let (arguments, st) ← parseExpressionListF fuel .rparen st
      .ok (.call function arguments, st)

/-- `Parser::parse_infix_expression`. -/
def parseInfixForm : Nat → Expression → ParserState →
    Except ParseFailure (Expression × ParserState)
  | 0, _, st => .error ("fuel exhausted", st)
  | fuel + 1, lhs, st =>
      match st.currentToken with
      | .lbracket => parseIndexExpression fuel lhs st
      | .lparen => parseCallExpression fuel lhs st
      | t => do
          let operator ←
            match t with
            | .plus => Except.ok InfixOperator.add
            | .minus => Except.ok InfixOperator.sub
            | .asterisk => Except.ok InfixOperator.mul
            | .slash => Except.ok InfixOperator.div
            | .eq => Except.ok InfixOperator.equal
            | .notEq => Except.ok InfixOperator.notEqual
            | .gt => Except.ok InfixOperator.greaterThan
            | .gtorEq => Except.ok InfixOperator.greaterThanOrEqual
            | .lt => Except.ok InfixOperator.lessThan
            | .ltorEq => Except.ok InfixOperator.lessThanOrEqual
            | .percent => Except.ok InfixOperator.modulo
            | _ => Except.error ("This is not a valid InfixOperator", st)
          let precedence := Precedence.ofToken st.currentToken
          let st := pNext st
          let (rhs, st) ← parseExpressionF fuel precedence st
          .ok (.infixE lhs operator rhs, st)

/-- `Parser::parse_statement`. -/
def parseStatementF : Nat → ParserState → Except ParseFailure (Statement × ParserState)
  | 0, st => .error ("fuel exhausted", st)
  | fuel + 1, st =>
      match st.currentToken with
      | .letT => parseLetStatement fuel st
      | .returnT => parseReturnStatement fuel st
      | _ => parseExpressionStatement fuel st

/-- `Parser::parse_let_statement`. -/
def parseLetStatement : Nat → ParserState → Except ParseFailure (Statement × ParserState)
  | 0, st => .error ("fuel exhausted", st)
  | fuel + 1, st => do
      let name ←
        match st.peekToken with
        | .ident name => Except.ok name
        | _ => Except.error ("expected Token::Ident", st)
      let st := pNext st
      let st ← assertPeek st .assign
      let st := pNext st
      let (value, st) ← parseExpressionF fuel .lowest st
      let st := if st.peekToken = .semicolon then pNext st else st
      .ok (.letS name value, st)

/-- `Parser::parse_return_statement`. -/
def parseReturnStatement : Nat → ParserState → Except ParseFailure (Statement × ParserState)
  | 0, st => .error ("fuel exhausted", st)
  | fuel + 1, st => do
      let st := pNext st
      let (expression, st) ← parseExpressionF fuel .lowest st
      let st := if st.peekToken = .semicolon then pNext st else st
      .ok (.ret expression, st)

/-- `Parser::parse_expression_statement`. -/
def parseExpressionStatement : Nat → ParserState →
    Except ParseFailure (Statement × ParserState)
  | 0, st => .error ("fuel exhausted", st)
  | fuel + 1, st => do
      let (expression, st) ← parseExpressionF fuel .lowest st
      let st := if st.peekToken = .semicolon then pNext st else st
      .ok (.expression expression, st)

end

/-- The statement loop of `Parser::parse_program`: parse statements until
`eof`, pushing successes and recording failures on the error list (the
failing parse leaves the parser wherever it stopped; `next_token` then
advances it one token). -/
def parseProgramLoop : Nat → List Statement → ParserState → List Statement × ParserState
  | 0, acc, st => (acc, { st with errors := st.errors ++ ["fuel exhausted"] })
  | fuel + 1, acc, st =>
      if st.currentToken = .eof then (acc, st)
      else
        match parseStatementF fuel st with
        | .ok (stmt, st) => parseProgramLoop fuel (acc ++ [stmt]) (pNext st)
        | .error (msg, st) =>
            parseProgramLoop fuel acc (pNext { st with errors := st.errors ++ [msg] })

/-- `Parser::parse_program` on a token stream. -/
def parseProgram (fuel : Nat) (tokens : List Token) : List Statement × ParserState :=
  parseProgramLoop fuel [] (ParserState.new tokens)

end Monkey

namespace Monkey

/-! ## Derived definitions used by the claim statements -/

/-- The bytecode a fresh compiler produces for a program, `none` when
compilation fails (the fuel is any bound at least the program's nesting
depth). -/
def compiledBytecode (fuel : Nat) (prog : List Statement) : Option (List Nat) :=
  match compileProgram fuel prog CompState.new with
  | .ok s => some (bytecodeInstructions s)
  | .error _ => none

/-- The error a fresh compiler reports for a program, `none` on success. -/
def compileErrOf (fuel : Nat) (prog : List Statement) : Option CompErr :=
  match compileProgram fuel prog CompState.new with
  | .ok _ => none
  | .error e => some e

/-- The program `fn() { };` (one expression statement holding an empty
function literal). -/
def fnLiteralProgram : List Statement :=
  [.expression (.fn "" [] [])]

/-- The program `let newClosure = fn(a) { fn() { a; }; };` — the opening of
the repository's own `test_closures` VM test. -/
def closureProgram : List Statement :=
  [.letS "newClosure"
    (.fn "" ["a"] [.expression (.fn "" [] [.expression (.identifier "a")])])]

/-- The program `3 <= 4;` — from the repository's own
`test_infix_expression` parser test. -/
def lessOrEqualProgram : List Statement :=
  [.expression (.infixE (.int 3) .lessThanOrEqual (.int 4))]

/-- The stack slice of a `Hash(2n)` execution, written as its key/value
pairs in increasing stack order (bottom to top = source order). -/
def pairsFlatten : List (Value × Value) → List Value
  | [] => []
  | (k, v) :: rest => k :: v :: pairsFlatten rest

/-- The map `build_hash` accumulates: each pair inserted in order. -/
def buildHashEntries (ps : List (Value × Value)) : List (Value × Value) :=
  ps.foldl (fun m p => hashInsert m p.1 p.2) []

/-- The value of the last pair of `ps` whose key equals `q`, if any. -/
def lastMatch : List (Value × Value) → Value → Option Value
  | [], _ => none
  | p :: rest, q => (lastMatch rest q).or (if p.1 = q then some p.2 else none)

/-- A nested symbol-table chain as the compiler builds it for
`fn(a) { fn() { a } }`: a global table, an enclosed table defining `a`
(hence Local), and an empty innermost table. -/
def exampleOuterTable : SymbolTable :=
  ((SymbolTable.newWithEnclosed SymbolTable.new).define "a").2

def exampleInnerTable : SymbolTable :=
  SymbolTable.newWithEnclosed exampleOuterTable

/-! ## C1 — function literals compile to `OpConstant`, not `OpClosure`

The claim (and spec section 4.4) says the compiler, after leaving the
function's compilation scope, emits one load per captured free symbol and a
`Closure (constant-index, free-count)` instruction.  The checked-out `Fn`
arm instead emits a plain `OpConstant` and never consults the free-capture
list, and a body that references an enclosing local is promoted to a
`Free` symbol that the identifier arm cannot load (its `match` has no
`GetFree` arm) — the repository's own closure tests cannot pass. -/

/-- C1: compiling `fn() { };` succeeds with bytecode
`[OpConstant 0, OpPop]` — no byte of it is the `OpClosure` opcode (27), so
no `Closure (constant-index, free-count)` instruction is emitted; and the
opening statement of the repository's own `test_closures` test aborts in
the compiler because the captured `a` resolves to a `Free` symbol that the
identifier arm does not cover. -/
theorem C1_fn_literal_emits_constant_not_closure :
    compiledBytecode 20 fnLiteralProgram =
      some [OpCode.opConstant.toByte, 0, 0, OpCode.opPop.toByte] ∧
    (∀ bs, compiledBytecode 20 fnLiteralProgram = some bs → OpCode.opClosure.toByte ∉ bs) ∧
    compileErrOf 20 closureProgram =
      some (.panicked "non-exhaustive match on SymbolScope") := by
  refine ⟨by decide, ?_, by decide⟩
  intro bs h
  have h0 : compiledBytecode 20 fnLiteralProgram =
      some [OpCode.opConstant.toByte, 0, 0, OpCode.opPop.toByte] := by decide
  rw [h0] at h
  injection h with h
  subst h
  decide

/-! ## C2 — the Index opcode never raises a runtime error -/

/-- C2 counterexample: the claim says indexing a collection that is neither
an array nor a hash "fails with a runtime error"; executing `Index` with
collection `5` and key `0` instead succeeds and pushes `Null`. -/
theorem C2_index_int_collection_pushes_null :
    opIndexStep [Value.int 5, Value.int 0] = .ok [Value.null] ∧
    ∀ e : VmErr, opIndexStep [Value.int 5, Value.int 0] ≠ .error e := by
  have h : opIndexStep [Value.int 5, Value.int 0] = .ok [Value.null] := by decide
  exact ⟨h, fun e he => by rw [h] at he; exact Except.noConfusion he⟩

/-- C2 amended: with an array collection and an integer key, `Index` pushes
the element at the (usize-cast) index or `Null` out of range; an array with
a non-integer key pushes `Null`; a hash collection pushes the mapped value
or `Null` when absent, for every key kind (non-hashable kinds included —
the catch-all `Hash` impl makes the lookup total); every other collection
kind pushes `Null`.  The step never produces a runtime error: on any stack
holding a collection and a key (with room to push back), it succeeds. -/
theorem C2_index_is_total_null_on_miss :
    (∀ (i : Int) (arr : List Value),
      executeIndexExpression (.int i) (.array arr) = (arr.get? (usizeOfI64 i)).getD .null) ∧
    (∀ (k : Value) (arr : List Value), (∀ i, k ≠ .int i) →
      executeIndexExpression k (.array arr) = .null) ∧
    (∀ (k : Value) (entries : List (Value × Value)),
      executeIndexExpression k (.hash entries) = (hashGet entries k).getD .null) ∧
    (∀ (k lhs : Value), (∀ arr, lhs ≠ .array arr) → (∀ entries, lhs ≠ .hash entries) →
      executeIndexExpression k lhs = .null) ∧
    (∀ (stack : List Value) (lhs idx : Value), stack.length < STACK_SIZE →
      opIndexStep (stack ++ [lhs, idx]) = .ok (stack ++ [executeIndexExpression idx lhs])) := by
  refine ⟨fun i arr => rfl, ?_, fun k entries => rfl, ?_, ?_⟩
  · intro k arr hk
    cases k <;> first
      | rfl
      | exact absurd rfl (hk _)
  · intro k lhs harr hhash
    cases lhs <;> first
      | rfl
      | exact absurd rfl (harr _)
      | exact absurd rfl (hhash _)
  · intro stack lhs idx hlen
    have hassoc : stack ++ [lhs, idx] = (stack ++ [lhs]) ++ [idx] := by
      simp
    unfold opIndexStep
    rw [hassoc]
    simp only [popValue, List.getLast?_concat, List.dropLast_concat, pushValue]
    rw [if_neg (by omega)]

/-- C2 witness: the amended theorem applied on the concrete stack
`[5, 0]`. -/
theorem C2_index_witness :
    ([] : List Value).length < STACK_SIZE ∧
    opIndexStep [Value.int 5, Value.int 0] = .ok [Value.null] := by
  refine ⟨by decide, ?_⟩
  have h := C2_index_is_total_null_on_miss.2.2.2.2 [] (Value.int 5) (Value.int 0)
    (by decide)
  simpa using h

/-! ## C6 — the parser produces operators whose compiler arm is `unreachable!()`

The repository's own `test_infix_expression` parser test feeds `3 <= 4;`
and requires it to parse as an infix expression, and the tree-walking
evaluator implements `<=`, `>=` and `%`; the compiler's `Infix` arm instead
reaches `unreachable!()` for them, aborting instead of returning an error.
-/

/-- C6: `3 <= 4;` lexes and parses cleanly (no parser errors) into an
infix expression — so the parser can produce it — and compiling that
program aborts through the `unreachable!()` arm of the `Infix` match
rather than succeeding or reporting an undefined variable. -/
theorem C6_less_or_equal_panics_the_compiler :
    lexAll 20 ("3 <= 4;".toList) =
      some [Token.int 3, Token.ltorEq, Token.int 4, Token.semicolon] ∧
    parseProgram 20 [Token.int 3, Token.ltorEq, Token.int 4, Token.semicolon] =
      (lessOrEqualProgram, ⟨.eof, .eof, [], []⟩) ∧
    compileErrOf 20 lessOrEqualProgram =
      some (.panicked "unreachable: InfixOperator without an arm") := by
  refine ⟨by decide, by rfl, by decide⟩

/-! ## C7 — JumpNotTruthy jumps exactly on False and Null -/

/-- C7: a popped value is non-truthy exactly when it is `False` or `Null`,
and the `JumpNotTruthy` arm sets the next instruction pointer to the jump
target exactly then; every other value — integer `0`, strings, arrays,
hashes — falls through to the next instruction (`ip + 3`).  (The operand
must be positive: the arm computes `position - 1` in `u16`.) -/
theorem C7_jump_not_truthy_on_false_and_null :
    (∀ v, isTruthy v = false ↔ (v = Value.bool false ∨ v = Value.null)) ∧
    (∀ position ip condition, 1 ≤ position →
      opJumpNotTruthyNewIp position ip condition =
        some (if condition = Value.bool false ∨ condition = Value.null then position
          else ip + 3)) := by
  have h1 : ∀ v, isTruthy v = false ↔ (v = Value.bool false ∨ v = Value.null) := by
    intro v
    cases v <;> simp [isTruthy]
  refine ⟨h1, ?_⟩
  intro position ip condition hpos
  unfold opJumpNotTruthyNewIp
  by_cases hc : condition = Value.bool false ∨ condition = Value.null
  · rw [(h1 condition).mpr hc, if_pos hc]
    simp only [Bool.false_eq_true, if_false]
    rw [if_neg (by omega)]
    congr 1
    omega
  · have ht : isTruthy condition = true := by
      cases h : isTruthy condition
      · exact absurd ((h1 condition).mp h) hc
      · rfl
    rw [ht, if_neg hc]
    simp

/-- C7 witness: integer `0` is truthy, so with jump target 9 and `ip` 4 the
step falls through to `ip + 3 = 7`. -/
theorem C7_jump_witness :
    1 ≤ 9 ∧ opJumpNotTruthyNewIp 9 4 (Value.int 0) = some 7 := by
  refine ⟨by norm_num, ?_⟩
  have h := C7_jump_not_truthy_on_false_and_null.2 9 4 (Value.int 0) (by norm_num)
  rw [h, if_neg (by decide)]

/-! ## C9 — integer division panics on a zero divisor and on `i64::MIN / -1` -/

/-- C9 counterexample: the claim says every nonzero divisor yields the
truncated quotient; at `left = i64::MIN`, `right = -1` (a nonzero divisor)
the Rust division overflows and panics — the embedded operation aborts
instead of pushing `2^63`. -/
theorem C9_min_div_neg_one_panics :
    executeBinaryIntegerOperation .opDiv (-1) minI64 = none ∧
    inI64 minI64 ∧ ((-1 : Int) ≠ 0) := by
  refine ⟨rfl, by decide, by decide⟩

/-- C9 amended: `Div` on integers is unguarded — a zero divisor aborts by
host panic (no VM error), and so does the overflowing `i64::MIN / -1`;
every other pair of `i64` operands pushes the exact truncated (toward-zero)
quotient. -/
theorem C9_div_unguarded_semantics :
    (∀ left : Int, executeBinaryIntegerOperation .opDiv 0 left = none) ∧
    (executeBinaryIntegerOperation .opDiv (-1) minI64 = none) ∧
    (∀ left right : Int, right ≠ 0 → ¬(left = minI64 ∧ right = -1) →
      executeBinaryIntegerOperation .opDiv right left =
        some (.int (Int.tdiv left right))) := by
  refine ⟨fun left => rfl, rfl, ?_⟩
  intro left right h0 hminNeg
  unfold executeBinaryIntegerOperation i64Div
  rw [if_neg h0, if_neg hminNeg]
  rfl

/-- C9 witness: `7 / -2` pushes the truncated quotient `-3`. -/
theorem C9_div_witness :
    ((-2 : Int) ≠ 0) ∧ ¬((7 : Int) = minI64 ∧ (-2 : Int) = -1) ∧
    executeBinaryIntegerOperation .opDiv (-2) 7 = some (.int (-3)) := by
  refine ⟨by decide, by decide, ?_⟩
  have h := C9_div_unguarded_semantics.2.2 7 (-2) (by decide) (by decide)
  rw [h]
  rfl

end Monkey

namespace Monkey

/-! ## C10 — Hash(n) inserts pairs in stack order; the last equal key wins -/

theorem beq_eq_decide (a b : Value) : Value.beq a b = decide (a = b) := by
  by_cases h : a = b
  · subst h
    simp [(Value.beq_iff_eq a a).mpr rfl]
  · cases hb : Value.beq a b
    · simp [h]
    · exact absurd ((Value.beq_iff_eq a b).mp hb) h

theorem hashGet_hashInsert (m : List (Value × Value)) (k v q : Value) :
    hashGet (hashInsert m k v) q = if k = q then some v else hashGet m q := by
  induction m with
  | nil => simp [hashInsert, hashGet, beq_eq_decide]
  | cons p rest ih =>
    obtain ⟨k', v'⟩ := p
    by_cases h1 : k' = k
    · subst h1
      by_cases h2 : k' = q <;> simp [hashInsert, hashGet, beq_eq_decide, h2]
    · by_cases h2 : k' = q
      · subst h2
        have hk : ¬(k = k') := fun hkq => h1 hkq.symm
        simp [hashInsert, hashGet, beq_eq_decide, h1, hk]
      · simp [hashInsert, hashGet, beq_eq_decide, h1, h2, ih]

theorem hashGet_insert_foldl (ps : List (Value × Value)) (acc : List (Value × Value))
    (q : Value) :
    hashGet (ps.foldl (fun m p => hashInsert m p.1 p.2) acc) q =
      (lastMatch ps q).or (hashGet acc q) := by
  induction ps generalizing acc with
  | nil => simp [lastMatch]
  | cons p rest ih =>
    simp only [List.foldl_cons, lastMatch]
    rw [ih, hashGet_hashInsert]
    cases lastMatch rest q with
    | some w => simp
    | none =>
      by_cases hc : p.1 = q <;> simp [hc]

theorem buildHashSlice_flatten (ps acc : List (Value × Value)) :
    buildHashSlice (pairsFlatten ps) acc =
      some (ps.foldl (fun m p => hashInsert m p.1 p.2) acc) := by
  induction ps generalizing acc with
  | nil => rfl
  | cons p rest ih => simp [pairsFlatten, buildHashSlice, ih]

/-- C10: executing `Hash(n)` inserts the `n/2` key/value pairs of the stack
slice in increasing stack order (source order), so looking any key up in
the built hash yields the value of the *last* pair with a structurally
equal key; and building the hash never fails, whatever the key kinds (the
catch-all `Hash` impl makes every `Value` insertable). -/
theorem C10_hash_pairs_in_order_last_wins :
    (∀ ps : List (Value × Value),
      buildHash (pairsFlatten ps) = some (.hash (buildHashEntries ps))) ∧
    (∀ (ps : List (Value × Value)) (q : Value),
      hashGet (buildHashEntries ps) q = lastMatch ps q) := by
  constructor
  · intro ps
    simp [buildHash, buildHashEntries, buildHashSlice_flatten]
  · intro ps q
    have h := hashGet_insert_foldl ps [] q
    simpa [hashGet, buildHashEntries] using h

/-! ## C3 — ReturnValue unwinds past the callee; Return does not -/

/-- C3 counterexample: with base pointer 1 and the callee `7` on the
stack, `Return` unwinds only to depth `base_pointer` — the callee slot is
kept — and pushes Null; the claim predicts depth `base_pointer - 1`, which
would leave `[Null]` alone. -/
theorem C3_return_keeps_the_callee :
    opReturnStep [Value.int 7] [⟨[], 0, 0⟩, ⟨[], 5, 1⟩] =
      .ok ([Value.int 7, Value.null], [⟨[], 0, 0⟩]) ∧
    ([Value.int 7, Value.null] : List Value) ≠
      List.take (1 - 1) [Value.int 7] ++ [Value.null] := by
  constructor <;> decide

/-- C3 amended: popping the frame with base pointer `bp`, `ReturnValue`
unwinds the operand stack to depth `bp - 1` (locals, arguments and the
callee removed) and pushes the popped return value; `Return` unwinds only
to depth `bp` — the callee below the base pointer is left in place — and
pushes Null. -/
theorem C3_unwind_semantics (stack : List Value) (frames : List Frame) (frame : Frame)
    (hf : frames.getLast? = some frame)
    (h1 : 1 ≤ frame.basePointer) (h2 : frame.basePointer + 1 ≤ stack.length)
    (h3 : frame.basePointer < STACK_SIZE) :
    opReturnStep stack frames =
      .ok (stack.take frame.basePointer ++ [Value.null], frames.dropLast) ∧
    ∀ v, stack.getLast? = some v →
      opReturnValueStep stack frames =
        .ok (stack.take (frame.basePointer - 1) ++ [v], frames.dropLast) := by
  have htake : (stack.take frame.basePointer).length = frame.basePointer := by
    rw [List.length_take]
    omega
  constructor
  · unfold opReturnStep
    rw [hf]
    simp only [pushValue, htake]
    rw [if_neg (by omega)]
  · intro v hv
    have e1 : popValue stack = .ok (v, stack.dropLast) := by
      unfold popValue
      rw [hv]
    have hdl : stack.dropLast.take frame.basePointer = stack.take frame.basePointer := by
      rw [List.dropLast_eq_take, List.take_take]
      congr 1
      omega
    have hne : stack.take frame.basePointer ≠ [] := by
      intro h
      rw [h] at htake
      simp at htake
      omega
    obtain ⟨w, hw⟩ : ∃ w, (stack.take frame.basePointer).getLast? = some w := by
      cases hg : (stack.take frame.basePointer).getLast? with
      | none => exact absurd (List.getLast?_eq_none_iff.mp hg) hne
      | some w => exact ⟨w, rfl⟩
    have hdl2 : (stack.take frame.basePointer).dropLast =
        stack.take (frame.basePointer - 1) := by
      rw [List.dropLast_eq_take, List.take_take, htake]
      congr 1
      omega
    have e2 : popValue (stack.take frame.basePointer) =
        .ok (w, stack.take (frame.basePointer - 1)) := by
      unfold popValue
      rw [hw, hdl2]
    have e3 : pushValue (stack.take (frame.basePointer - 1)) v =
        .ok (stack.take (frame.basePointer - 1) ++ [v]) := by
      unfold pushValue
      rw [if_neg (by rw [List.length_take]; omega)]
    simp only [opReturnValueStep, e1, hf, hdl, e2, e3]

/-- C3 witness: the amended theorem at the concrete state
`stack = [7, 9]`, frame base pointer 1: `ReturnValue` leaves `[9]`. -/
theorem C3_unwind_witness :
    ([⟨[], 0, 0⟩, ⟨[], 5, 1⟩] : List Frame).getLast? = some ⟨[], 5, 1⟩ ∧
    opReturnValueStep [Value.int 7, Value.int 9] [⟨[], 0, 0⟩, ⟨[], 5, 1⟩] =
      .ok ([Value.int 9], [⟨[], 0, 0⟩]) := by
  refine ⟨by decide, ?_⟩
  have h := (C3_unwind_semantics [Value.int 7, Value.int 9]
    [⟨[], 0, 0⟩, ⟨[], 5, 1⟩] ⟨[], 5, 1⟩ (by decide) (by decide) (by decide)
    (by decide)).2 (Value.int 9) (by decide)
  simpa using h

end Monkey

namespace Monkey

/-! ## C5 — resolve: lookup, pass-through, promotion; but not idempotent

`Option::or` evaluates its argument eagerly, so every `resolve` walks the
outer chain — and promotes an outer `Local`/`Free` hit with `define_free` —
even when the name is already cached in the current scope.  The *returned*
symbol matches the claim in every case; the free-capture list does not stay
fixed on a second resolve. -/

/-- C5 counterexample: in the chain built for `fn(a) { fn() { a } }`
(global ⊃ table defining `a` as Local ⊃ empty inner table), the first
resolve of `a` promotes it (free list `[Local a]`), and a second resolve
returns the cached `Free` symbol but *grows* the free list to
`[Local a, Local a]` — promotion is not idempotent. -/
theorem C5_second_resolve_grows_free_list :
    (exampleInnerTable.resolve "a").1 = some ⟨"a", .freeScope, 0⟩ ∧
    (exampleInnerTable.resolve "a").2.freeSymbols = [⟨"a", .localScope, 0⟩] ∧
    ((exampleInnerTable.resolve "a").2.resolve "a").1 = some ⟨"a", .freeScope, 0⟩ ∧
    ((exampleInnerTable.resolve "a").2.resolve "a").2.freeSymbols =
      [⟨"a", .localScope, 0⟩, ⟨"a", .localScope, 0⟩] ∧
    ([(⟨"a", .localScope, 0⟩ : Symbol), ⟨"a", .localScope, 0⟩] ≠
      [(⟨"a", .localScope, 0⟩ : Symbol)]) := by
  refine ⟨by decide, by decide, by decide, by decide, by decide⟩

/-- C5 amended: `resolve(name)` *returns* the local binding when present,
and otherwise passes a Global/Builtin/Function-Self outer hit through
unchanged, or promotes a Local/Free outer hit into the current scope as a
Free symbol whose index is its position in the free-capture list.  But
promotion is not idempotent: the outer lookup and its `define_free` side
effect run on *every* resolve (eager `Option::or`), so whenever the
enclosing chain yields a Local/Free hit the free-capture list grows by the
original symbol and the name is rebound to a fresh Free symbol — even when
the current scope already holds a cached binding, in which case the cached
symbol is returned while the table still mutates. -/
theorem C5_resolve_semantics :
    (∀ (t : SymbolTable) (name : String) (s : Symbol),
      storeGet t.store name = some s → (t.resolve name).1 = some s) ∧
    (∀ (store : List (String × Symbol)) (n : Nat) (f : List Symbol) (name : String),
      SymbolTable.resolve (.mk none store n f) name =
        (storeGet store name, .mk none store n f)) ∧
    (∀ (store : List (String × Symbol)) (n : Nat) (f : List Symbol) (name : String)
        (out out2 : SymbolTable) (sym : Symbol),
      out.resolve name = (some sym, out2) →
      storeGet store name = none →
      (sym.scope = .globalScope ∨ sym.scope = .builtinScope ∨
        sym.scope = .functionScope) →
      SymbolTable.resolve (.mk (some out) store n f) name =
        (some sym, .mk (some out2) store n f)) ∧
    (∀ (store : List (String × Symbol)) (n : Nat) (f : List Symbol) (name : String)
        (out out2 : SymbolTable) (sym : Symbol),
      out.resolve name = (some sym, out2) →
      storeGet store name = none →
      ¬(sym.scope = .globalScope ∨ sym.scope = .builtinScope ∨
        sym.scope = .functionScope) →
      SymbolTable.resolve (.mk (some out) store n f) name =
        (some ⟨sym.name, .freeScope, f.length⟩,
          .mk (some out2) (storeInsert store sym.name ⟨sym.name, .freeScope, f.length⟩)
            n (f ++ [sym]))) ∧
    (∀ (store : List (String × Symbol)) (n : Nat) (f : List Symbol) (name : String)
        (out out2 : SymbolTable) (sym cached : Symbol),
      out.resolve name = (some sym, out2) →
      storeGet store name = some cached →
      ¬(sym.scope = .globalScope ∨ sym.scope = .builtinScope ∨
        sym.scope = .functionScope) →
      SymbolTable.resolve (.mk (some out) store n f) name =
        (some cached,
          .mk (some out2) (storeInsert store sym.name ⟨sym.name, .freeScope, f.length⟩)
            n (f ++ [sym]))) := by
  refine ⟨?_, ?_, ?_, ?_, ?_⟩
  · intro t name s hs
    obtain ⟨outer, store, n, f⟩ := t
    simp only [SymbolTable.store] at hs
    cases outer with
    | none => simp [SymbolTable.resolve, hs]
    | some out =>
      simp only [SymbolTable.resolve]
      cases hr : out.resolve name with
      | mk r out2 =>
        cases r with
        | none => simp [hs]
        | some sym =>
          by_cases hscope : sym.scope = .globalScope ∨ sym.scope = .builtinScope ∨
              sym.scope = .functionScope
          · simp [hscope, hs]
          · simp [hscope, hs, SymbolTable.defineFree]
  · intro store n f name
    simp [SymbolTable.resolve, Option.or]
    cases storeGet store name <;> rfl
  · intro store n f name out out2 sym hr hmiss hscope
    simp [SymbolTable.resolve, hr, hmiss, hscope]
  · intro store n f name out out2 sym hr hmiss hscope
    simp [SymbolTable.resolve, hr, hmiss, hscope, SymbolTable.defineFree]
  · intro store n f name out out2 sym cached hr hcache hscope
    simp [SymbolTable.resolve, hr, hcache, hscope, SymbolTable.defineFree]

/-- C5 witness: promotion (part 4 of the amended theorem) applied at the
concrete chain of the counterexample: resolving `a` in the empty inner
table promotes the outer Local symbol at free index 0. -/
theorem C5_resolve_witness :
    exampleOuterTable.resolve "a" = (some ⟨"a", .localScope, 0⟩, exampleOuterTable) ∧
    storeGet ([] : List (String × Symbol)) "a" = none ∧
    SymbolTable.resolve (.mk (some exampleOuterTable) [] 0 []) "a" =
      (some ⟨"a", .freeScope, 0⟩,
        .mk (some exampleOuterTable) [("a", ⟨"a", .freeScope, 0⟩)] 0
          [⟨"a", .localScope, 0⟩]) := by
  refine ⟨rfl, by decide, ?_⟩
  have h := C5_resolve_semantics.2.2.2.1 [] 0 [] "a" exampleOuterTable
    exampleOuterTable ⟨"a", .localScope, 0⟩ rfl (by decide) (by decide)
  simpa [storeInsert] using h

/-! ## C8 — integer-literal overflow panics the lexer -/

/-- C8 counterexample: on the digit run `9223372036854775808` (2^63, one
past `i64::MAX`) the lexer does not return a failure token or error result
— the embedded `next_token` aborts (the `.expect` panic), crashing the
process. -/
theorem C8_overflow_crashes :
    nextToken ("9223372036854775808".toList) = none ∧
    ∀ t rest, nextToken ("9223372036854775808".toList) ≠ some (t, rest) := by
  have h : nextToken ("9223372036854775808".toList) = none := by decide
  exact ⟨h, fun t rest he => by rw [h] at he; exact Option.noConfusion he⟩

/-- C8 amended: a base-10 digit run whose value exceeds `i64::MAX` makes
`read_digit` — and hence `next_token` on any input whose next lexeme is
that run — abort by host panic (`expect`), rather than returning a
tokenizer failure to the caller. -/
theorem C8_overflow_is_a_panic :
    (∀ input : List Char,
      maxI64 < (digitsVal (input.takeWhile isDigitCh) : Int) →
      readDigit input = none) ∧
    (∀ (input : List Char) (c : Char) (rest : List Char),
      skipWhitespace input = c :: rest → isDigitCh c = true →
      maxI64 < (digitsVal ((c :: rest).takeWhile isDigitCh) : Int) →
      nextToken input = none) := by
  have hfirst : ∀ input : List Char,
      maxI64 < (digitsVal (input.takeWhile isDigitCh) : Int) →
      readDigit input = none := by
    intro input h
    unfold readDigit parseI64Digits
    rw [if_neg (by omega)]
  refine ⟨hfirst, ?_⟩
  intro input c rest hskip hd hbig
  have hne : ∀ d : Char, isDigitCh d = false → ¬(c = d) := by
    intro d hdf he
    rw [he, hdf] at hd
    exact Bool.noConfusion hd
  unfold nextToken
  rw [hskip]
  dsimp only
  rw [if_neg (hne '=' (by decide)), if_neg (hne '+' (by decide)),
    if_neg (hne '-' (by decide)), if_neg (hne '!' (by decide)),
    if_neg (hne '/' (by decide)), if_neg (hne '*' (by decide)),
    if_neg (hne '%' (by decide)), if_neg (hne '>' (by decide)),
    if_neg (hne '<' (by decide)), if_neg (hne ';' (by decide)),
    if_neg (hne '(' (by decide)), if_neg (hne ')' (by decide)),
    if_neg (hne ',' (by decide)), if_neg (hne '\x7b' (by decide)),
    if_neg (hne '\x7d' (by decide)), if_neg (hne '\x00' (by decide)),
    if_pos hd]
  exact hfirst (c :: rest) hbig

/-- C8 witness: the amended theorem applied to the literal
`9223372036854775808`. -/
theorem C8_overflow_witness :
    skipWhitespace ("9223372036854775808".toList) =
      '9' :: ("223372036854775808".toList) ∧
    nextToken ("9223372036854775808".toList) = none := by
  refine ⟨by decide, ?_⟩
  exact C8_overflow_is_a_panic.2 ("9223372036854775808".toList) '9'
    ("223372036854775808".toList) (by decide) (by decide) (by decide)

end Monkey

namespace Monkey

/-! ## C4 — encoding round-trip -/

theorem tryFromByte_toByte (op : OpCode) : OpCode.tryFromByte op.toByte = some op := by
  cases op <;> rfl

theorem widths_are_bytes (op : OpCode) : ∀ w ∈ operandWidths op, w = 1 ∨ w = 2 := by
  intro w hw
  cases op <;> simp [operandWidths] at hw <;> omega

theorem roundtrip_operands :
    ∀ (ws : List Nat) (ops : List Int),
      ops.length = ws.length →
      (∀ p ∈ ws.zip ops, 0 ≤ p.2 ∧ p.2 < 2 ^ (8 * p.1)) →
      (∀ w ∈ ws, w = 1 ∨ w = 2) →
      ∃ bs, makeOperands ws ops = some bs ∧ bs.length = ws.sum ∧
        readOperands ws bs = some (ops, ws.sum) := by
  intro ws
  induction ws with
  | nil =>
    intro ops hlen _ _
    rw [List.length_nil, List.length_eq_zero] at hlen
    subst hlen
    exact ⟨[], rfl, rfl, rfl⟩
  | cons w ws ih =>
    intro ops hlen hfit hw
    cases ops with
    | nil => simp at hlen
    | cons v vs =>
      have hv := hfit (w, v) (by rw [List.zip_cons_cons]; exact List.mem_cons_self _ _)
      obtain ⟨bs, h1, h2, h3⟩ := ih vs (by simpa using hlen)
        (fun p hp => hfit p (by rw [List.zip_cons_cons]; exact List.mem_cons_of_mem _ hp))
        (fun x hx => hw x (by simp [hx]))
      have hv0 : 0 ≤ v := hv.1
      have hvlt : v < 2 ^ (8 * w) := hv.2
      rcases hw w (by simp) with hw1 | hw2
      · subst hw1
        have hvlt' : v < 256 := by norm_num at hvlt; exact hvlt
        have hmod : v % 256 = v := Int.emod_eq_of_lt hv0 hvlt'
        have hofNat : ((u8OfI64 v : Nat) : Int) = v := by
          unfold u8OfI64
          rw [hmod]
          exact Int.toNat_of_nonneg hv0
        refine ⟨u8OfI64 v :: bs, ?_, ?_, ?_⟩
        · simp [makeOperands, encodeOperand, h1]
        · simp [h2, Nat.add_comm]
        · simp [readOperands, h3, hofNat, Nat.add_comm]
      · subst hw2
        have hvlt' : v < 65536 := by norm_num at hvlt; exact hvlt
        have hmod : v % 65536 = v := Int.emod_eq_of_lt hv0 hvlt'
        have hn : ((u16OfI64 v : Nat) : Int) = v := by
          unfold u16OfI64
          rw [hmod]
          exact Int.toNat_of_nonneg hv0
        have hsplit : u16OfI64 v / 256 * 256 + u16OfI64 v % 256 = u16OfI64 v := by
          omega
        have hofNat : ((u16OfI64 v / 256 * 256 + u16OfI64 v % 256 : Nat) : Int) = v := by
          rw [hsplit]
          exact hn
        refine ⟨u16OfI64 v / 256 :: u16OfI64 v % 256 :: bs, ?_, ?_, ?_⟩
        · simp [makeOperands, encodeOperand, h1]
        · simp [h2]
          omega
        · simp [readOperands, h3, hofNat, Nat.add_comm]
          omega

/-- C4: for every opcode and every legal operand list (one value per
declared operand, each fitting its fixed width), `make` succeeds, the
encoded length is one byte plus the sum of the opcode's declared operand
widths, and decoding (the `TryFrom<u8>` of the opcode byte followed by
`read_operands` with its width table) yields the same opcode and the same
operand values. -/
theorem C4_encode_decode_roundtrip (op : OpCode) (operands : List Int)
    (h : LegalOperands op operands) :
    ∃ bs, make op operands = some bs ∧
      bs.length = 1 + (operandWidths op).sum ∧
      decodeInstruction bs = some (op, operands) := by
  obtain ⟨hlen, hfit⟩ := h
  obtain ⟨bs, h1, h2, h3⟩ :=
    roundtrip_operands (operandWidths op) operands hlen hfit (widths_are_bytes op)
  refine ⟨op.toByte :: bs, ?_, ?_, ?_⟩
  · simp [make, h1]
  · simp [h2]
    omega
  · simp [decodeInstruction, tryFromByte_toByte, h3]

/-- C4 witness: the round-trip at `Closure (65534, 255)` — a two-byte and
a one-byte operand, both at their width limits. -/
theorem C4_roundtrip_witness :
    LegalOperands .opClosure [65534, 255] ∧
    ∃ bs, make .opClosure [65534, 255] = some bs ∧
      bs.length = 1 + (operandWidths .opClosure).sum ∧
      decodeInstruction bs = some (.opClosure, [65534, 255]) := by
  have hL : LegalOperands .opClosure [65534, 255] := by
    constructor
    · decide
    · decide
  exact ⟨hL, C4_encode_decode_roundtrip .opClosure [65534, 255] hL⟩

end Monkey
